import Mathlib

/-!
Verification of the tuizlet study-session core: the fuzzy answer matcher
(`src/services/quiz-loader.ts` / `text-matcher.ts`), the question generators
(`src/services` multiple-choice generator and the learn command's own
generator), and the learn command's session state machine (`bin/tuizlet.js`
learn module).  JavaScript strings are modelled as Lean `String`
(`List Char`), JavaScript numbers as `Nat`/`Int` (all arithmetic in the
sources stays small and integral), and `Math.random()`-driven choices as
explicitly passed choice streams, so every theorem quantifies over all
possible random outcomes.
-/

namespace Tuizlet

/-! ## Models of the JavaScript string primitives used by the sources -/

/-- Lexicographic string comparison, as JavaScript's `<` on strings
(code-unit order; all strings involved are BMP, where code-unit order
and code-point order agree). -/
def jsLtList : List Char → List Char → Bool
  | [], [] => false
  | [], _ :: _ => true
  | _ :: _, [] => false
  | a :: as, b :: bs => if a < b then true else if b < a then false else jsLtList as bs

/-- JavaScript `a < b` on strings. -/
def jsStringLt (a b : String) : Bool := jsLtList a.data b.data

/-- JavaScript `a <= b` on strings (equivalently `!(b < a)`). -/
def jsStringLe (a b : String) : Bool := !(jsStringLt b a)

/-- The character list with leading and trailing whitespace removed,
as JavaScript `String.prototype.trim`. -/
def trimList (l : List Char) : List Char :=
  ((l.dropWhile Char.isWhitespace).reverse.dropWhile Char.isWhitespace).reverse

/-- JavaScript `s.trim()`. -/
def jsTrim (s : String) : String := String.mk (trimList s.data)

/-- JavaScript `String.prototype.toLowerCase` on one character, restricted to
the basic latin range (the only range the quiz sources rely on); characters
outside `A`–`Z` are returned unchanged. -/
def jsToLowerChar (c : Char) : Char :=
  match c with
  | 'A' => 'a' | 'B' => 'b' | 'C' => 'c' | 'D' => 'd' | 'E' => 'e' | 'F' => 'f'
  | 'G' => 'g' | 'H' => 'h' | 'I' => 'i' | 'J' => 'j' | 'K' => 'k' | 'L' => 'l'
  | 'M' => 'm' | 'N' => 'n' | 'O' => 'o' | 'P' => 'p' | 'Q' => 'q' | 'R' => 'r'
  | 'S' => 's' | 'T' => 't' | 'U' => 'u' | 'V' => 'v' | 'W' => 'w' | 'X' => 'x'
  | 'Y' => 'y' | 'Z' => 'z'
  | c => c

/-- JavaScript `s.toLowerCase()`. -/
def jsToLower (s : String) : String := String.mk (s.data.map jsToLowerChar)

/-- JavaScript `s.replace(/\s+/g, " ")`: every maximal run of whitespace
characters becomes a single space. -/
def collapseWs : List Char → List Char
  | [] => []
  | [c] => if c.isWhitespace then [' '] else [c]
  | c :: d :: rest =>
    if c.isWhitespace ∧ d.isWhitespace then collapseWs (d :: rest)
    else (if c.isWhitespace then ' ' else c) :: collapseWs (d :: rest)

/-- Canonical decomposition of one character, modelling
`String.prototype.normalize("NFD")` on the precomposed Latin-1 letters that
flashcard answers use (the "café" family); characters without an entry are
already decomposed and map to themselves. -/
def nfdChar (c : Char) : List Char :=
  match c with
  | 'à' => ['a', '̀'] | 'á' => ['a', '́'] | 'â' => ['a', '̂']
  | 'ã' => ['a', '̃'] | 'ä' => ['a', '̈']
  | 'è' => ['e', '̀'] | 'é' => ['e', '́'] | 'ê' => ['e', '̂']
  | 'ë' => ['e', '̈']
  | 'ì' => ['i', '̀'] | 'í' => ['i', '́'] | 'î' => ['i', '̂']
  | 'ï' => ['i', '̈']
  | 'ò' => ['o', '̀'] | 'ó' => ['o', '́'] | 'ô' => ['o', '̂']
  | 'õ' => ['o', '̃'] | 'ö' => ['o', '̈']
  | 'ù' => ['u', '̀'] | 'ú' => ['u', '́'] | 'û' => ['u', '̂']
  | 'ü' => ['u', '̈']
  | 'ñ' => ['n', '̃'] | 'ç' => ['c', '̧']
  | 'ý' => ['y', '́'] | 'ÿ' => ['y', '̈']
  | c => [c]

/-- Whether a character falls in the combining-diacritics block `̀`-`ͯ`
matched by the matcher's strip-accents regex. -/
def isCombiningMark (c : Char) : Bool :=
  0x300 ≤ c.toNat && c.toNat ≤ 0x36f

/-- JavaScript `parseInt` on the strings it is applied to in the key handler
(strings beginning with a decimal digit): numeric value of the leading digit
run. -/
def leadingDigitsVal (s : String) : Nat :=
  (s.data.takeWhile Char.isDigit).foldl (fun a c => 10 * a + (c.toNat - 48)) 0

/-- JavaScript `s.charCodeAt(0)` (on the nonempty BMP strings the key handler
applies it to). -/
def headCharCode (s : String) : Nat :=
  match s.data with
  | [] => 0
  | c :: _ => c.toNat

/-- JavaScript `s.slice(0, -1)`: the string without its final character. -/
def jsSliceDropLast (s : String) : String := String.mk s.data.dropLast

/-! ## Matcher (`src/services/quiz-loader.ts`, `normalizeText` /
`levenshteinDistance` / `matchAnswer`) -/

/-- `normalizeText(text, ignoreAccents)`: trim, lowercase, collapse whitespace
runs, and (when `ignoreAccents`) decompose and strip combining diacritics. -/
def normalizeText (text : String) (ignoreAccents : Bool) : String :=
  let normalized := (trimList text.data).map jsToLowerChar
  let normalized := collapseWs normalized
  let normalized :=
    if ignoreAccents then
      ((normalized.flatMap nfdChar).filter fun c => !(isCombiningMark c))
    else normalized
  String.mk normalized

/-- One inner step of the Levenshtein dynamic program: given the character
`bc` = `b.charAt(i-1)` of the current row, the remaining characters of `a`,
the entry `matrix[i-1][j-1]` (`prevPrev`), the remaining entries
`matrix[i-1][j..]` of the previous row, and the entry `matrix[i][j-1]` (`cur`),
produce the entries `matrix[i][j..]` of the current row. -/
def levRowAux (bc : Char) : List Char → Nat → List Nat → Nat → List Nat
  | [], _, _, _ => []
  | _ :: _, _, [], _ => []
  | ac :: as, prevPrev, pj :: prest, cur =>
    let next := if bc = ac then prevPrev else 1 + min prevPrev (min cur pj)
    next :: levRowAux bc as pj prest next

/-- Row `i` of the Levenshtein matrix from row `i-1` (`matrix[i][0] = i`,
then the classical recurrence across the row). -/
def levNextRow (bc : Char) (as' : List Char) (prev : List Nat) (i : Nat) : List Nat :=
  match prev with
  | [] => [i]
  | p0 :: prest => i :: levRowAux bc as' p0 prest i

/-- `levenshteinDistance(a, b)`: the classical dynamic program over a
`(b.length+1) × (a.length+1)` matrix with base cases equal to the index and
unit-cost substitution/insertion/deletion, returning
`matrix[b.length][a.length]`. -/
def levenshteinDistance (a b : String) : Nat :=
  let row0 := List.range (a.data.length + 1)
  let finalRow := b.data.enum.foldl (fun prev p => levNextRow p.2 a.data prev (p.1 + 1)) row0
  finalRow.getLastD 0

/-- `MatchOptions` with the declared defaults (`ignoreCase=true`,
`ignoreAccents=true`, `allowTypoDistance=1`); the TypeScript optional fields
are modelled as already-defaulted values. -/
structure MatchOptions where
  ignoreCase : Bool := true
  ignoreAccents : Bool := true
  allowTypoDistance : Nat := 1
  deriving Repr, DecidableEq

/-- `MatchResult`; `distance` lives in `WithTop Nat` because the loop's
starting best distance is `Infinity`. -/
structure MatchResult where
  isCorrect : Bool
  isExact : Bool
  distance : WithTop Nat
  matchedAnswer : Option String
  deriving DecidableEq

/-- The normalization both call sites inside `matchAnswer` apply (lines
185-187 for the input and 196-198 for each accepted answer): full
`normalizeText` when `ignoreCase` is set, a bare `trim()` otherwise. -/
def matchNorm (opts : MatchOptions) (s : String) : String :=
  if opts.ignoreCase then normalizeText s opts.ignoreAccents else jsTrim s

/-- The `for (const answer of correctAnswers)` loop of `matchAnswer`,
threading the running `bestMatch`. -/
def matchAnswerLoop (normalizedInput : String) (opts : MatchOptions) :
    List String → MatchResult → MatchResult
  | [], best => best
  | answer :: rest, best =>
    let normalizedAnswer := matchNorm opts answer
    if normalizedInput = normalizedAnswer then
      { isCorrect := true, isExact := true, distance := 0, matchedAnswer := some answer }
    else
      let distance := levenshteinDistance normalizedInput normalizedAnswer
      let best' :=
        if (distance : WithTop Nat) < best.distance then
          { isCorrect := decide (distance ≤ opts.allowTypoDistance)
            isExact := false
            distance := (distance : WithTop Nat)
            matchedAnswer :=
              if distance ≤ opts.allowTypoDistance then some answer else none }
        else best
      matchAnswerLoop normalizedInput opts rest best'

/-- `matchAnswer(userInput, correctAnswers, options)`. -/
def matchAnswer (userInput : String) (correctAnswers : List String)
    (opts : MatchOptions := {}) : MatchResult :=
  matchAnswerLoop (matchNorm opts userInput) opts correctAnswers
    { isCorrect := false, isExact := false, distance := ⊤, matchedAnswer := none }

/-- Modelled from the spec (§4.1 step 1): normalize by trimming surrounding
whitespace, collapsing internal whitespace runs to one space, lowercasing if
`ignoreCase`, and stripping decomposed diacritics if `ignoreAccents` —
unconditionally in that the whitespace and accent steps do not depend on
`ignoreCase`.  Used to state claim C1 against the code's `normalizeText`. -/
def specNormalizeText (ignoreCase ignoreAccents : Bool) (text : String) : String :=
  let l := trimList text.data
  let l := collapseWs l
  let l := if ignoreCase then l.map jsToLowerChar else l
  let l := if ignoreAccents then ((l.flatMap nfdChar).filter fun c => !(isCombiningMark c)) else l
  String.mk l

/-- The matcher loop abstracted over the normalization function it applies
(identically) to the input and to every accepted answer. -/
def matchAnswerWithLoop (norm : String → String) (normalizedInput : String)
    (allowTypoDistance : Nat) : List String → MatchResult → MatchResult
  | [], best => best
  | answer :: rest, best =>
    let normalizedAnswer := norm answer
    if normalizedInput = normalizedAnswer then
      { isCorrect := true, isExact := true, distance := 0, matchedAnswer := some answer }
    else
      let distance := levenshteinDistance normalizedInput normalizedAnswer
      let best' :=
        if (distance : WithTop Nat) < best.distance then
          { isCorrect := decide (distance ≤ allowTypoDistance)
            isExact := false
            distance := (distance : WithTop Nat)
            matchedAnswer := if distance ≤ allowTypoDistance then some answer else none }
        else best
      matchAnswerWithLoop norm normalizedInput allowTypoDistance rest best'

/-- The matcher abstracted over a single normalization function shared between
the user input and every accepted answer. -/
def matchAnswerWith (norm : String → String) (userInput : String)
    (correctAnswers : List String) (allowTypoDistance : Nat) : MatchResult :=
  matchAnswerWithLoop norm (norm userInput) allowTypoDistance correctAnswers
    { isCorrect := false, isExact := false, distance := ⊤, matchedAnswer := none }

/-! ## Card data model (`src/models/card.ts`, fields the engine reads; the
display-only optional fields — hint, images, audio, explanations, tags,
metadata — play no role in any claim and are omitted) -/

/-- Front side of a card. -/
structure CardFront where
  text : String
  deriving Repr, DecidableEq

/-- Back side of a card; `alternatives` is `[]`-defaulted by the schema, so
the parsed field is a plain list (the learn command's `?? []` is a no-op). -/
structure CardBack where
  text : String
  alternatives : List String
  deriving Repr, DecidableEq

/-- A flashcard. -/
structure Card where
  id : String
  front : CardFront
  back : CardBack
  deriving Repr, DecidableEq

/-- Question direction, the `"front-to-back" | "back-to-front"` string union. -/
inductive Direction where
  | frontToBack
  | backToFront
  deriving Repr, DecidableEq

/-- An option of a multiple-choice question (`src/models/question.ts`). -/
structure MultipleChoiceOption where
  id : String
  text : String
  isCorrect : Bool
  deriving Repr, DecidableEq

/-! ## Fisher-Yates shuffle (identical `shuffle` helper in the generator
service and in `bin/tuizlet.js`).  `Math.floor(Math.random() * (i + 1))` is a
uniformly chosen index in `0..i`; it is modelled by an arbitrary choice stream
`rand` reduced into range, so theorems quantifying over `rand` cover every
possible sequence of random draws. -/

/-- Swap the entries at positions `i` and `j`
(`[result[i], result[j]] = [result[j], result[i]]`). -/
def listSwap (l : List α) (i j : Nat) : List α :=
  match l[i]?, l[j]? with
  | some a, some b => (l.set i b).set j a
  | _, _ => l

/-- The `for (let i = result.length - 1; i > 0; i--)` loop of the shuffle. -/
def fyLoop (rand : Nat → Nat) : List α → Nat → List α
  | l, 0 => l
  | l, k + 1 => fyLoop rand (listSwap l (k + 1) (rand (k + 1) % (k + 2))) k

/-- `shuffle(array)`: Fisher-Yates over a copy of the input. -/
def shuffle (l : List α) (rand : Nat → Nat) : List α :=
  fyLoop rand l (l.length - 1)

/-- All the `Math.random()` consumers of one generation call, as explicit
streams: the card shuffle, the per-question distractor shuffle and option
shuffle, the per-question random option ids (`generateId`), the mixed-mode
coin flips, and the final question shuffle. -/
structure RandomSource where
  shuffleCards : Nat → Nat
  wrong : Nat → Nat → Nat
  optShuffle : Nat → Nat → Nat
  ids : Nat → Nat → String
  modePick : Nat → Bool
  finalShuffle : Nat → Nat

/-! ## Multiple-choice question generator
(`generateMultipleChoiceQuestionsFromCards` / `generateQuestion`) -/

/-- A generated multiple-choice question record
(`src/models/question.ts` shape). -/
structure MultipleChoiceQuestion where
  cardId : String
  prompt : String
  options : List MultipleChoiceOption
  allowMultiple : Bool
  deriving Repr, DecidableEq

/-- `GeneratedQuestion`. -/
structure GeneratedQuestion where
  question : MultipleChoiceQuestion
  card : Card
  direction : Direction
  deriving Repr, DecidableEq

/-- `QuestionGeneratorOptions` with its defaults.  The embedding assumes
`numOptions ≥ 1` (the schema default is 4 and no caller passes another value),
so `slice(0, numOptions - 1)` is `take (numOptions - 1)`. -/
structure QuestionGeneratorOptions where
  numOptions : Nat := 4
  bidirectional : Bool := true
  shuffle : Bool := true
  deriving Repr, DecidableEq

/-- `generateQuestion(targetCard, allCards, direction, numOptions)`:
the correct answer plus up to `numOptions - 1` distractors drawn from a fresh
shuffle of the other cards, the whole option list shuffled again. -/
def generateQuestion (targetCard : Card) (allCards : List Card)
    (direction : Direction) (numOptions : Nat)
    (wrongRand optRand : Nat → Nat) (ids : Nat → String) : GeneratedQuestion :=
  let prompt :=
    if direction = .frontToBack then "What is \"" ++ targetCard.front.text ++ "\"?"
    else "What is \"" ++ targetCard.back.text ++ "\"?"
  let correctAnswer :=
    if direction = .frontToBack then targetCard.back.text else targetCard.front.text
  let otherCards := allCards.filter fun c => c.id ≠ targetCard.id
  let wrongCards := (shuffle otherCards wrongRand).take (numOptions - 1)
  let wrongAnswers := wrongCards.map fun c =>
    if direction = .frontToBack then c.back.text else c.front.text
  let options : List MultipleChoiceOption :=
    { id := ids 0, text := correctAnswer, isCorrect := true } ::
      (wrongAnswers.enum.map fun p => { id := ids (p.1 + 1), text := p.2, isCorrect := false })
  let shuffledOptions := shuffle options optRand
  { question :=
      { cardId := targetCard.id, prompt := prompt, options := shuffledOptions
        allowMultiple := false }
    card := targetCard
    direction := direction }

/-- `generateMultipleChoiceQuestionsFromCards(cards, options)`: per card a
front-to-back question and, if `bidirectional`, a back-to-front question, over
the (optionally) shuffled card list, the result (optionally) shuffled once
more. -/
def generateMultipleChoiceQuestionsFromCards (cards : List Card)
    (opts : QuestionGeneratorOptions) (ρ : RandomSource) : List GeneratedQuestion :=
  let cardList := if opts.shuffle then shuffle cards ρ.shuffleCards else cards
  let questions := cardList.enum.flatMap fun p =>
    generateQuestion p.2 cardList .frontToBack opts.numOptions
        (ρ.wrong (2 * p.1)) (ρ.optShuffle (2 * p.1)) (ρ.ids (2 * p.1)) ::
      (if opts.bidirectional then
        [generateQuestion p.2 cardList .backToFront opts.numOptions
          (ρ.wrong (2 * p.1 + 1)) (ρ.optShuffle (2 * p.1 + 1)) (ρ.ids (2 * p.1 + 1))]
      else [])
  if opts.shuffle then shuffle questions ρ.finalShuffle else questions

/-! ## Learn command (`bin/tuizlet.js` learn module): its own question
generator and the keyboard-driven session state machine -/

/-- `LearnMode`. -/
inductive LearnMode where
  | multipleChoice
  | typeAnswer
  | mixed
  deriving Repr, DecidableEq

/-- The per-question mode, `"multiple-choice" | "type-answer"`. -/
inductive QuestionMode where
  | multipleChoice
  | typeAnswer
  deriving Repr, DecidableEq

/-- The learn command's `Question`; `options` is present exactly on
multiple-choice questions (optional field in the source). -/
structure Question where
  card : Card
  prompt : String
  correctAnswers : List String
  direction : Direction
  mode : QuestionMode
  options : Option (List MultipleChoiceOption)
  deriving Repr, DecidableEq

/-- `createQuestion(card, allCards, direction, mode)`: prompt, target answer,
alternatives only when the back is the answer side, and options for
multiple-choice questions. -/
def createQuestion (card : Card) (allCards : List Card) (direction : Direction)
    (mode : QuestionMode) (wrongRand optRand : Nat → Nat) (ids : Nat → String) :
    Question :=
  let prompt :=
    if direction = .frontToBack then "What is \"" ++ card.front.text ++ "\"?"
    else "What is \"" ++ card.back.text ++ "\"?"
  let correctAnswer := if direction = .frontToBack then card.back.text else card.front.text
  let alternatives := if direction = .frontToBack then card.back.alternatives else []
  let correctAnswers := correctAnswer :: alternatives
  if mode = .multipleChoice then
    let otherCards := allCards.filter fun c => c.id ≠ card.id
    let wrongCards := (shuffle otherCards wrongRand).take (min 3 otherCards.length)
    let wrongAnswers := wrongCards.map fun c =>
      if direction = .frontToBack then c.back.text else c.front.text
    let options : List MultipleChoiceOption :=
      { id := ids 0, text := correctAnswer, isCorrect := true } ::
        (wrongAnswers.enum.map fun p => { id := ids (p.1 + 1), text := p.2, isCorrect := false })
    { card := card, prompt := prompt, correctAnswers := correctAnswers
      direction := direction, mode := mode, options := some (shuffle options optRand) }
  else
    { card := card, prompt := prompt, correctAnswers := correctAnswers
      direction := direction, mode := mode, options := none }

/-- `generateQuestions(cards, mode)`: over one shuffle of the cards, a
front-to-back and a back-to-front question per card (mixed mode flips an
independent coin for each), the whole list shuffled once more. -/
def generateQuestions (cards : List Card) (mode : LearnMode) (ρ : RandomSource) :
    List Question :=
  let shuffledCards := shuffle cards ρ.shuffleCards
  let questions := shuffledCards.enum.flatMap fun p =>
    let questionMode : QuestionMode :=
      match mode with
      | .mixed => if ρ.modePick (2 * p.1) then .multipleChoice else .typeAnswer
      | .multipleChoice => .multipleChoice
      | .typeAnswer => .typeAnswer
    let backMode : QuestionMode :=
      match mode with
      | .mixed => if ρ.modePick (2 * p.1 + 1) then .multipleChoice else .typeAnswer
      | .multipleChoice => .multipleChoice
      | .typeAnswer => .typeAnswer
    [createQuestion p.2 shuffledCards .frontToBack questionMode
        (ρ.wrong (2 * p.1)) (ρ.optShuffle (2 * p.1)) (ρ.ids (2 * p.1)),
      createQuestion p.2 shuffledCards .backToFront backMode
        (ρ.wrong (2 * p.1 + 1)) (ρ.optShuffle (2 * p.1 + 1)) (ρ.ids (2 * p.1 + 1))]
  shuffle questions ρ.finalShuffle

/-- `LearnState`.  `selectedOption` is an `Int` because `-1` denotes "no
selection"; the counters and index are `Nat` (only ever incremented). -/
structure LearnState where
  questions : List Question
  currentIndex : Nat
  selectedOption : Int
  typedAnswer : String
  answered : Bool
  correct : Nat
  incorrect : Nat
  showingResult : Bool
  lastAnswerCorrect : Bool
  correctAnswer : String
  deriving Repr, DecidableEq

/-- The initial state built in `runLearnCommand`. -/
def initialLearnState (questions : List Question) : LearnState :=
  { questions := questions, currentIndex := 0, selectedOption := -1
    typedAnswer := "", answered := false, correct := 0, incorrect := 0
    showingResult := false, lastAnswerCorrect := false, correctAnswer := "" }

/-- An abstract keyboard event (`@opentui/core` `KeyEvent`): the key `name`
and the modifier flags the handlers read. -/
structure KeyEvent where
  name : String
  ctrl : Bool := false
  meta : Bool := false
  deriving Repr, DecidableEq

/-- Fallback used where the source applies a non-null assertion
(`state.questions[state.currentIndex]!`); the guarded call sites never reach
it. -/
def emptyQuestion : Question :=
  { card := { id := "", front := { text := "" }, back := { text := "", alternatives := [] } }
    prompt := "", correctAnswers := [], direction := .frontToBack
    mode := .typeAnswer, options := none }

/-- The shared tail of `handleMultipleChoiceKey`: the
`optionIndex >= 0 && optionIndex < numOptions && !state.answered` guard and,
when it passes, the finalizing mutation (select, mark answered, bump exactly
one counter, show the result). -/
def mcFinalize (state : LearnState) (q : Question) (numOptions : Nat)
    (optionIndex : Int) : LearnState :=
  if 0 ≤ optionIndex ∧ optionIndex < (numOptions : Int) ∧ state.answered = false then
    let selectedOpt := (q.options.getD []).getD optionIndex.toNat
      { id := "", text := "", isCorrect := false }
    { state with
        selectedOption := optionIndex
        answered := true
        lastAnswerCorrect := selectedOpt.isCorrect
        correctAnswer := q.correctAnswers.getD 0 ""
        correct := if selectedOpt.isCorrect then state.correct + 1 else state.correct
        incorrect := if selectedOpt.isCorrect then state.incorrect else state.incorrect + 1
        showingResult := true }
  else state

/-- `handleMultipleChoiceKey(event, state)`: digits `1`-`4` and letters
`a`-`d` select directly (string-range tests and `parseInt`/`charCodeAt`
exactly as the source), arrows move the selection cursor, Enter confirms an
existing selection; a computed `optionIndex` then flows into the common
finalize guard. -/
def handleMultipleChoiceKey (event : KeyEvent) (state : LearnState) : LearnState :=
  let keyName := jsToLower event.name
  let q := (state.questions[state.currentIndex]?).getD emptyQuestion
  let numOptions := (q.options.getD []).length
  if jsStringLe "1" keyName && jsStringLe keyName "4" then
    mcFinalize state q numOptions ((leadingDigitsVal keyName : Int) - 1)
  else if jsStringLe "a" keyName && jsStringLe keyName "d" then
    mcFinalize state q numOptions ((headCharCode keyName : Int) - 97)
  else if keyName = "up" then
    { state with
        selectedOption :=
          if state.selectedOption ≤ 0 then (numOptions : Int) - 1
          else state.selectedOption - 1 }
  else if keyName = "down" then
    { state with
        selectedOption :=
          if state.selectedOption ≥ (numOptions : Int) - 1 then 0
          else state.selectedOption + 1 }
  else if (keyName = "return" || keyName = "enter") && 0 ≤ state.selectedOption then
    mcFinalize state q numOptions state.selectedOption
  else
    mcFinalize state q numOptions (-1)

/-- `handleTypeAnswerKey(event, state)`: backspace edits the buffer, Enter on
a non-blank trimmed buffer grades via `matchAnswer` with the fixed tolerance
config and finalizes, single characters and the space key append. -/
def handleTypeAnswerKey (event : KeyEvent) (state : LearnState) : LearnState :=
  let keyName := jsToLower event.name
  let q := (state.questions[state.currentIndex]?).getD emptyQuestion
  if keyName = "backspace" then
    { state with typedAnswer := jsSliceDropLast state.typedAnswer }
  else if keyName = "return" || keyName = "enter" then
    if 0 < (jsTrim state.typedAnswer).length then
      let result := matchAnswer state.typedAnswer q.correctAnswers
        { ignoreCase := true, ignoreAccents := true, allowTypoDistance := 1 }
      { state with
          answered := true
          lastAnswerCorrect := result.isCorrect
          correctAnswer := q.correctAnswers.getD 0 ""
          correct := if result.isCorrect then state.correct + 1 else state.correct
          incorrect := if result.isCorrect then state.incorrect else state.incorrect + 1
          showingResult := true }
    else state
  else if event.name.length = 1 && !event.ctrl && !event.meta then
    { state with typedAnswer := state.typedAnswer ++ event.name }
  else if keyName = "space" then
    { state with typedAnswer := state.typedAnswer ++ " " }
  else state

/-- The `handleKey` closure of `runLearnCommand`: completed sessions ignore
keys (the handler detaches), a shown result is acknowledged by any key
(advance and clear scratch state), otherwise the key is dispatched to the
current question's mode handler. -/
def handleKey (state : LearnState) (event : KeyEvent) : LearnState :=
  if state.questions.length ≤ state.currentIndex then state
  else if state.showingResult then
    { state with
        showingResult := false
        currentIndex := state.currentIndex + 1
        selectedOption := -1
        typedAnswer := ""
        answered := false }
  else
    match state.questions[state.currentIndex]? with
    | none => state
    | some q =>
      if q.mode = .multipleChoice then handleMultipleChoiceKey event state
      else handleTypeAnswerKey event state

/-- A whole session: the serialized stream of key events folded through
`handleKey`. -/
def stepKeys (state : LearnState) (events : List KeyEvent) : LearnState :=
  events.foldl handleKey state

/-- The score figures `renderComplete` computes. -/
structure SessionSummary where
  total : Nat
  percentage : Int
  deriving Repr, DecidableEq

/-- JavaScript `Math.round`: round half toward positive infinity,
`⌊x + 1/2⌋`. -/
def jsMathRound (q : ℚ) : ℤ := ⌊q + 1 / 2⌋

/-- The summary computed by `renderComplete`:
`total = correct + incorrect` and
`percentage = Math.round((correct / total) * 100)` when `total > 0`, else
`0`. -/
def renderCompleteSummary (state : LearnState) : SessionSummary :=
  let total := state.correct + state.incorrect
  let percentage :=
    if 0 < total then jsMathRound ((state.correct : ℚ) / (total : ℚ) * 100) else 0
  { total := total, percentage := percentage }

/-! ## Predicates used by the session-machine and matcher proofs -/

/-- What one dispatched key event may do to a session state: questions and
cursor untouched, and either the answered/result/counter fields are all
untouched, or the step finalizes (shows the result, marks answered) and bumps
exactly one of the two counters. -/
abbrev StepShape (s s' : LearnState) : Prop :=
  s'.questions = s.questions ∧ s'.currentIndex = s.currentIndex ∧
    ((s'.showingResult = s.showingResult ∧ s'.answered = s.answered ∧
      s'.correct = s.correct ∧ s'.incorrect = s.incorrect) ∨
     (s'.showingResult = true ∧ s'.answered = true ∧
      ((s'.correct = s.correct + 1 ∧ s'.incorrect = s.incorrect) ∨
       (s'.correct = s.correct ∧ s'.incorrect = s.incorrect + 1))))

/-- The reachable-state invariant of a learn session: `answered` mirrors
`showingResult`, the counters equal the cursor plus the pending shown result,
a shown result belongs to a real question, and the cursor never passes the
end. -/
abbrev CountersInv (s : LearnState) : Prop :=
  s.answered = s.showingResult ∧
    s.correct + s.incorrect = s.currentIndex + (if s.showingResult then 1 else 0) ∧
    (s.showingResult = true → s.currentIndex < s.questions.length) ∧
    s.currentIndex ≤ s.questions.length

/-- Coherence of the matcher loop's running `bestMatch`: never exact, and the
`isCorrect`/`matchedAnswer` fields determined by its distance against the typo
budget. -/
abbrev BestCoherent (k : Nat) (r : MatchResult) : Prop :=
  r.isExact = false ∧
    r.isCorrect = decide (r.distance ≤ (k : WithTop Nat)) ∧
    (r.matchedAnswer ≠ none ↔ r.distance ≤ (k : WithTop Nat))

/-! ## Concrete fixtures used by witnesses and counterexamples -/

/-- A degenerate choice stream: every random draw picks index 0, every random
id is empty, every mixed-mode coin picks multiple-choice. -/
def zeroRand : RandomSource :=
  { shuffleCards := fun _ => 0, wrong := fun _ _ => 0, optShuffle := fun _ _ => 0
    ids := fun _ _ => "", modePick := fun _ => true, finalShuffle := fun _ => 0 }

/-- A one-card set. -/
def soloCard : Card :=
  { id := "c1", front := { text := "hello" }, back := { text := "hola", alternatives := [] } }

/-- A second card with a distinct id. -/
def otherCard : Card :=
  { id := "c2", front := { text := "cat" }, back := { text := "gato", alternatives := [] } }

/-- A two-card set with distinct ids. -/
def twoCards : List Card := [soloCard, otherCard]

/-- A one-question type-answer session fixture. -/
def typeQuestion : Question :=
  { card := soloCard, prompt := "What is \"hello\"?"
    correctAnswers := ["hola"], direction := .frontToBack
    mode := .typeAnswer, options := none }

/-- A one-question multiple-choice session fixture (two options, the second
correct). -/
def mcQuestion : Question :=
  { card := soloCard, prompt := "What is \"hello\"?"
    correctAnswers := ["hola"], direction := .frontToBack
    mode := .multipleChoice
    options := some [{ id := "w", text := "gato", isCorrect := false },
                     { id := "r", text := "hola", isCorrect := true }] }

/-- Key events completing `typeQuestion` correctly: type `hola`, submit,
acknowledge. -/
def typeSessionKeys : List KeyEvent :=
  [{ name := "h" }, { name := "o" }, { name := "l" }, { name := "a" },
   { name := "return" }, { name := "x" }]

/-- A completed-session state with one correct answer recorded. -/
def oneRightState : LearnState :=
  { questions := [typeQuestion], currentIndex := 1, selectedOption := -1
    typedAnswer := "", answered := false, correct := 1, incorrect := 0
    showingResult := false, lastAnswerCorrect := true, correctAnswer := "hola" }

/-! ## Shuffle lemmas: the Fisher-Yates loop permutes its input, whatever the
random draws. -/

theorem cons_set_perm (xs : List α) (k : Nat) (hk : k < xs.length) (x : α) :
    List.Perm (xs[k] :: xs.set k x) (x :: xs) := by
  induction xs generalizing k with
  | nil => simp at hk
  | cons y t ih =>
    cases k with
    | zero => simpa using List.Perm.swap x y t
    | succ k =>
      have hk' : k < t.length := by simpa using hk
      have h1 : List.Perm (t[k] :: y :: t.set k x) (y :: t[k] :: t.set k x) :=
        List.Perm.swap _ _ _
      have h2 : List.Perm (y :: t[k] :: t.set k x) (y :: x :: t) := (ih k hk').cons y
      have h3 : List.Perm (y :: x :: t) (x :: y :: t) := List.Perm.swap _ _ _
      simpa using (h1.trans h2).trans h3

theorem set_set_perm (l : List α) (i j : Nat) (hi : i < l.length) (hj : j < l.length) :
    List.Perm ((l.set i l[j]).set j l[i]) l := by
  induction l generalizing i j with
  | nil => simp at hi
  | cons c t ih =>
    cases i with
    | zero =>
      cases j with
      | zero => simp
      | succ k =>
        have hk : k < t.length := by simpa using hj
        simpa using cons_set_perm t k hk c
    | succ m =>
      have hm : m < t.length := by simpa using hi
      cases j with
      | zero =>
        simpa using cons_set_perm t m hm c
      | succ k =>
        have hk : k < t.length := by simpa using hj
        simpa using (ih m k hm hk).cons c

theorem listSwap_perm (l : List α) (i j : Nat) : List.Perm (listSwap l i j) l := by
  unfold listSwap
  split
  · next a b ha hb =>
    obtain ⟨hi, rfl⟩ := List.getElem?_eq_some_iff.mp ha
    obtain ⟨hj, rfl⟩ := List.getElem?_eq_some_iff.mp hb
    exact set_set_perm l i j hi hj
  · exact List.Perm.refl l

theorem fyLoop_perm (rand : Nat → Nat) (l : List α) (k : Nat) :
    List.Perm (fyLoop rand l k) l := by
  induction k generalizing l with
  | zero => exact List.Perm.refl l
  | succ k ih =>
    exact (ih _).trans (listSwap_perm l (k + 1) (rand (k + 1) % (k + 2)))

theorem shuffle_perm (l : List α) (rand : Nat → Nat) :
    List.Perm (shuffle l rand) l :=
  fyLoop_perm rand l (l.length - 1)

theorem shuffle_length (l : List α) (rand : Nat → Nat) :
    (shuffle l rand).length = l.length :=
  (shuffle_perm l rand).length_eq

/-! ## Matcher loop lemmas -/

theorem matchAnswerLoop_first_exact (nI : String) (opts : MatchOptions) (a : String)
    (post : List String) (ha : matchNorm opts a = nI) :
    ∀ (pre : List String) (best : MatchResult),
      (∀ b ∈ pre, matchNorm opts b ≠ nI) →
      matchAnswerLoop nI opts (pre ++ a :: post) best =
        { isCorrect := true, isExact := true, distance := 0, matchedAnswer := some a } := by
  intro pre
  induction pre with
  | nil =>
    intro best _
    simp only [List.nil_append, matchAnswerLoop]
    rw [if_pos ha.symm]
  | cons b rest ih =>
    intro best hpre
    have hb : matchNorm opts b ≠ nI := hpre b (by simp)
    simp only [List.cons_append, matchAnswerLoop]
    rw [if_neg (fun h => hb h.symm)]
    exact ih _ fun x hx => hpre x (by simp [hx])

theorem matchAnswerLoop_distance (nI : String) (opts : MatchOptions) :
    ∀ (answers : List String) (best : MatchResult),
      (∀ b ∈ answers, matchNorm opts b ≠ nI) →
      (matchAnswerLoop nI opts answers best).distance =
        answers.foldl
          (fun m b => min m (levenshteinDistance nI (matchNorm opts b) : WithTop Nat))
          best.distance := by
  intro answers
  induction answers with
  | nil => intro best _; rfl
  | cons b rest ih =>
    intro best hno
    have hb : matchNorm opts b ≠ nI := hno b (by simp)
    simp only [matchAnswerLoop, List.foldl_cons]
    rw [if_neg (fun h => hb h.symm)]
    rw [ih _ fun x hx => hno x (by simp [hx])]
    congr 1
    split
    · next hlt => simp [min_eq_right (le_of_lt hlt)]
    · next hge => simp [min_eq_left (not_lt.mp hge)]

theorem matchAnswerLoop_coherent (nI : String) (opts : MatchOptions) :
    ∀ (answers : List String) (best : MatchResult),
      (∀ b ∈ answers, matchNorm opts b ≠ nI) →
      BestCoherent opts.allowTypoDistance best →
      BestCoherent opts.allowTypoDistance (matchAnswerLoop nI opts answers best) := by
  intro answers
  induction answers with
  | nil => intro best _ h; exact h
  | cons b rest ih =>
    intro best hno hbest
    have hb : matchNorm opts b ≠ nI := hno b (by simp)
    simp only [matchAnswerLoop]
    rw [if_neg (fun h => hb h.symm)]
    refine ih _ (fun x hx => hno x (by simp [hx])) ?_
    split
    · have hcast :
          ((levenshteinDistance nI (matchNorm opts b) : WithTop Nat) ≤
            (opts.allowTypoDistance : WithTop Nat)) ↔
          levenshteinDistance nI (matchNorm opts b) ≤ opts.allowTypoDistance := by
        exact_mod_cast Iff.rfl
      refine ⟨rfl, ?_, ?_⟩
      · show decide (levenshteinDistance nI (matchNorm opts b) ≤ opts.allowTypoDistance) =
          decide ((levenshteinDistance nI (matchNorm opts b) : WithTop Nat) ≤
            (opts.allowTypoDistance : WithTop Nat))
        exact (decide_eq_decide.mpr hcast).symm
      · show (if levenshteinDistance nI (matchNorm opts b) ≤ opts.allowTypoDistance
            then some b else none) ≠ none ↔
          ((levenshteinDistance nI (matchNorm opts b) : WithTop Nat) ≤
            (opts.allowTypoDistance : WithTop Nat))
        rw [hcast]
        split
        · next hle => simp [hle]
        · next hgt => simp [hgt]
    · exact hbest

theorem foldl_min_withTop {β : Type} (dfn : β → Nat) (bs : List β) :
    bs ≠ [] → ∀ (m : WithTop Nat),
      ∃ d : Nat,
        bs.foldl (fun (acc : WithTop Nat) (b : β) => min acc (dfn b : WithTop Nat)) m =
            min m (d : WithTop Nat) ∧
        d ∈ bs.map dfn ∧ ∀ x ∈ bs.map dfn, d ≤ x := by
  induction bs with
  | nil => intro h; exact absurd rfl h
  | cons a rest ih =>
    intro _ m
    cases rest with
    | nil =>
      exact ⟨dfn a, by simp, by simp, by simp⟩
    | cons y t =>
      obtain ⟨d', hfold, hmem, hmin⟩ := ih (by simp) (min m (dfn a : WithTop Nat))
      refine ⟨min (dfn a) d', ?_, ?_, ?_⟩
      · rw [List.foldl_cons, hfold, min_assoc]
        congr 1
      · rcases min_cases (dfn a) d' with ⟨h, _⟩ | ⟨h, _⟩
        · simp [h]
        · simp only [h, List.map_cons]
          exact List.mem_cons_of_mem _ hmem
      · intro z hz
        rw [List.map_cons] at hz
        rcases List.mem_cons.mp hz with rfl | hz'
        · exact min_le_left _ d'
        · exact le_trans (min_le_right (dfn a) d') (hmin z hz')

/-! ## Normalization lemmas: lowercasing commutes with whitespace collapsing,
so the code's trim-lowercase-collapse order meets the spec's
trim-collapse-lowercase order. -/

theorem jsToLowerChar_isWhitespace (c : Char) :
    (jsToLowerChar c).isWhitespace = c.isWhitespace := by
  unfold jsToLowerChar
  split <;> rfl

theorem collapseWs_map_lower (l : List Char) :
    collapseWs (l.map jsToLowerChar) = (collapseWs l).map jsToLowerChar := by
  have hsp : jsToLowerChar ' ' = ' ' := rfl
  induction l using collapseWs.induct with
  | case1 => rfl
  | case2 c h => simp [collapseWs, jsToLowerChar_isWhitespace, h, hsp]
  | case3 c h => simp [collapseWs, jsToLowerChar_isWhitespace, h]
  | case4 c d rest hws ih =>
    simp only [List.map_cons] at ih ⊢
    simp [collapseWs, jsToLowerChar_isWhitespace, hws.1, hws.2, ih]
  | case5 c d rest hws ih =>
    simp only [List.map_cons] at ih ⊢
    have hws' : ¬((jsToLowerChar c).isWhitespace = true ∧ (jsToLowerChar d).isWhitespace = true) := by
      simpa [jsToLowerChar_isWhitespace] using hws
    rw [collapseWs, collapseWs, if_neg hws', if_neg hws]
    by_cases h : c.isWhitespace
    · simp [jsToLowerChar_isWhitespace, h, ih, hsp]
    · simp [jsToLowerChar_isWhitespace, h, ih]

theorem normalizeText_eq_specNormalize (s : String) (acc : Bool) :
    normalizeText s acc = specNormalizeText true acc s := by
  simp only [normalizeText, specNormalizeText, if_true, collapseWs_map_lower]

theorem matchAnswerLoop_eq_withLoop (opts : MatchOptions) (nI : String) :
    ∀ (answers : List String) (best : MatchResult),
      matchAnswerLoop nI opts answers best =
        matchAnswerWithLoop (matchNorm opts) nI opts.allowTypoDistance answers best := by
  intro answers
  induction answers with
  | nil => intro best; rfl
  | cons b rest ih =>
    intro best
    simp only [matchAnswerLoop, matchAnswerWithLoop]
    split
    · rfl
    · exact ih _

/-! ## Claim theorems: matcher -/

/-- C10: for every input string and configuration, `matchAnswer` with an
empty accepted-answer list is total and returns `isCorrect = false`,
`isExact = false`, an infinite distance, and no matched answer (the loop
never runs, so the initial `bestMatch` is returned; nothing throws). -/
theorem matchAnswer_empty_answers (input : String) (opts : MatchOptions) :
    matchAnswer input [] opts =
      { isCorrect := false, isExact := false, distance := ⊤, matchedAnswer := none } := rfl

/-- C4: `matchAnswer` scans the accepted answers in order and returns
immediately on the first whose normalized form equals the normalized input,
with `isCorrect = true`, `isExact = true`, `distance = 0` and that answer
matched — so an exact match on a later alternative beats a
closer-but-inexact earlier one. -/
theorem matchAnswer_exact_precedence (input : String) (opts : MatchOptions)
    (pre post : List String) (a : String)
    (hpre : ∀ b ∈ pre, matchNorm opts b ≠ matchNorm opts input)
    (ha : matchNorm opts a = matchNorm opts input) :
    matchAnswer input (pre ++ a :: post) opts =
      { isCorrect := true, isExact := true, distance := 0, matchedAnswer := some a } :=
  matchAnswerLoop_first_exact (matchNorm opts input) opts a post ha pre _ hpre

/-- Witness for C4, the spec's own example: with `ignoreAccents = false`,
`"café"` against `["cafe", "café"]` exactly matches the second entry rather
than fuzzily matching the first. -/
theorem matchAnswer_exact_precedence_witness :
    matchAnswer "café" ["cafe", "café"]
        { ignoreCase := true, ignoreAccents := false, allowTypoDistance := 1 } =
      { isCorrect := true, isExact := true, distance := 0, matchedAnswer := some "café" } :=
  matchAnswer_exact_precedence "café"
    { ignoreCase := true, ignoreAccents := false, allowTypoDistance := 1 }
    ["cafe"] [] "café" (by decide) (by decide)

/-- C5: when no accepted answer matches exactly, `matchAnswer` returns the
minimum Levenshtein distance over all accepted answers, `isCorrect` holds
exactly when that minimum is within `allowTypoDistance`, `matchedAnswer` is
present exactly when the minimum is within the tolerance, and the distance is
reported even beyond the tolerance. -/
theorem matchAnswer_best_fuzzy (input : String) (answers : List String) (opts : MatchOptions)
    (hne : answers ≠ [])
    (hnoex : ∀ b ∈ answers, matchNorm opts b ≠ matchNorm opts input) :
    ∃ d : Nat,
      d ∈ answers.map (fun b => levenshteinDistance (matchNorm opts input) (matchNorm opts b)) ∧
      (∀ d' ∈ answers.map
          (fun b => levenshteinDistance (matchNorm opts input) (matchNorm opts b)), d ≤ d') ∧
      (matchAnswer input answers opts).distance = (d : WithTop Nat) ∧
      (matchAnswer input answers opts).isCorrect = decide (d ≤ opts.allowTypoDistance) ∧
      (matchAnswer input answers opts).isExact = false ∧
      ((matchAnswer input answers opts).matchedAnswer ≠ none ↔ d ≤ opts.allowTypoDistance) := by
  have htop : ¬((⊤ : WithTop Nat) ≤ (opts.allowTypoDistance : WithTop Nat)) := by
    simp
  have hcoh : BestCoherent opts.allowTypoDistance (matchAnswer input answers opts) := by
    refine matchAnswerLoop_coherent _ opts answers _ hnoex ?_
    refine ⟨rfl, (decide_eq_false htop).symm, ?_⟩
    constructor
    · intro h; exact absurd rfl h
    · intro h; exact absurd h htop
  have hdist : (matchAnswer input answers opts).distance =
      answers.foldl
        (fun (acc : WithTop Nat) (b : String) =>
          min acc (levenshteinDistance (matchNorm opts input) (matchNorm opts b) : WithTop Nat))
        ⊤ :=
    matchAnswerLoop_distance (matchNorm opts input) opts answers
      { isCorrect := false, isExact := false, distance := ⊤, matchedAnswer := none } hnoex
  obtain ⟨d, hfold, hmem, hlb⟩ :=
    foldl_min_withTop
      (fun b => levenshteinDistance (matchNorm opts input) (matchNorm opts b))
      answers hne ⊤
  have hcast : ((d : WithTop Nat) ≤ (opts.allowTypoDistance : WithTop Nat)) ↔
      d ≤ opts.allowTypoDistance := by
    exact_mod_cast Iff.rfl
  have hd : (matchAnswer input answers opts).distance = (d : WithTop Nat) := by
    rw [hdist, hfold]
    exact min_eq_right le_top
  refine ⟨d, hmem, hlb, hd, ?_, hcoh.1, ?_⟩
  · rw [hcoh.2.1, hd]
    exact decide_eq_decide.mpr hcast
  · have h := hcoh.2.2
    rw [hd] at h
    exact h.trans hcast

/-- Witness for C5: the inexact input `"abc"` against `["abd", "xyz"]` under
the default configuration. -/
theorem matchAnswer_best_fuzzy_witness :
    ∃ d : Nat,
      d ∈ (["abd", "xyz"]).map
          (fun b => levenshteinDistance (matchNorm {} "abc") (matchNorm {} b)) ∧
      (∀ d' ∈ (["abd", "xyz"]).map
          (fun b => levenshteinDistance (matchNorm {} "abc") (matchNorm {} b)), d ≤ d') ∧
      (matchAnswer "abc" ["abd", "xyz"] {}).distance = (d : WithTop Nat) ∧
      (matchAnswer "abc" ["abd", "xyz"] {}).isCorrect =
        decide (d ≤ MatchOptions.allowTypoDistance {}) ∧
      (matchAnswer "abc" ["abd", "xyz"] {}).isExact = false ∧
      ((matchAnswer "abc" ["abd", "xyz"] {}).matchedAnswer ≠ none ↔
        d ≤ MatchOptions.allowTypoDistance {}) :=
  matchAnswer_best_fuzzy "abc" ["abd", "xyz"] {} (by decide) (by decide)

/-- Counterexample to C1 as stated: with `ignoreCase = false` the spec's
normalization recipe makes `"a  b"` and `"a b"` identical (whitespace runs
collapse), so the claim demands an exact match; the code, however, only trims
when `ignoreCase` is unset, and returns an inexact distance-1 result. -/
theorem matchAnswer_normalization_cex :
    specNormalizeText false false "a  b" = specNormalizeText false false "a b" ∧
    (matchAnswer "a  b" ["a b"]
      { ignoreCase := false, ignoreAccents := false, allowTypoDistance := 1 }).isExact = false ∧
    (matchAnswer "a  b" ["a b"]
      { ignoreCase := false, ignoreAccents := false, allowTypoDistance := 1 }).distance =
      ((1 : Nat) : WithTop Nat) := by
  decide

/-- C1 (amended): `matchAnswer` applies one normalization function
identically to the input and to every accepted answer; when `ignoreCase` is
set that normalization is exactly the spec's recipe (trim, collapse
whitespace runs, lowercase, strip decomposed diacritics when
`ignoreAccents`), but when `ignoreCase` is unset both sides are only trimmed —
no whitespace collapsing, lowercasing, or accent stripping happens. -/
theorem matchAnswer_normalization (input : String) (answers : List String)
    (opts : MatchOptions) :
    matchAnswer input answers opts =
      matchAnswerWith (matchNorm opts) input answers opts.allowTypoDistance ∧
    (opts.ignoreCase = true →
      ∀ s, matchNorm opts s = specNormalizeText true opts.ignoreAccents s) ∧
    (opts.ignoreCase = false → ∀ s, matchNorm opts s = jsTrim s) := by
  refine ⟨?_, ?_, ?_⟩
  · exact matchAnswerLoop_eq_withLoop opts (matchNorm opts input) answers _
  · intro hic s
    rw [matchNorm, if_pos hic]
    exact normalizeText_eq_specNormalize s opts.ignoreAccents
  · intro hic s
    rw [matchNorm, if_neg (by simp [hic])]

/-- Witness for C1 (amended): both conditional normalization equations at
concrete configurations and strings. -/
theorem matchAnswer_normalization_witness :
    matchNorm { ignoreCase := true, ignoreAccents := true, allowTypoDistance := 1 }
        " Héllo  W " =
      specNormalizeText true true " Héllo  W " ∧
    matchNorm { ignoreCase := false, ignoreAccents := true, allowTypoDistance := 1 }
        " x  y " =
      jsTrim " x  y " :=
  ⟨(matchAnswer_normalization "" []
      { ignoreCase := true, ignoreAccents := true, allowTypoDistance := 1 }).2.1 rfl _,
   (matchAnswer_normalization "" []
      { ignoreCase := false, ignoreAccents := true, allowTypoDistance := 1 }).2.2 rfl _⟩

/-! ## Session-machine lemmas -/

theorem mcFinalize_shape (s : LearnState) (q : Question) (n : Nat) (k : Int) :
    StepShape s (mcFinalize s q n k) := by
  simp only [mcFinalize]
  repeat' split
  all_goals simp_all [StepShape]

theorem handleMultipleChoiceKey_shape (e : KeyEvent) (s : LearnState) :
    StepShape s (handleMultipleChoiceKey e s) := by
  simp only [handleMultipleChoiceKey]
  split
  · exact mcFinalize_shape ..
  split
  · exact mcFinalize_shape ..
  split
  · exact ⟨rfl, rfl, Or.inl ⟨rfl, rfl, rfl, rfl⟩⟩
  split
  · exact ⟨rfl, rfl, Or.inl ⟨rfl, rfl, rfl, rfl⟩⟩
  split
  · exact mcFinalize_shape ..
  · exact mcFinalize_shape ..

theorem handleTypeAnswerKey_shape (e : KeyEvent) (s : LearnState) :
    StepShape s (handleTypeAnswerKey e s) := by
  simp only [handleTypeAnswerKey]
  repeat' split
  all_goals simp_all [StepShape]

theorem handleKey_questions (s : LearnState) (e : KeyEvent) :
    (handleKey s e).questions = s.questions := by
  unfold handleKey
  split
  · rfl
  split
  · rfl
  split
  · rfl
  split
  · exact (handleMultipleChoiceKey_shape e s).1
  · exact (handleTypeAnswerKey_shape e s).1

theorem handleKey_counters (s : LearnState) (e : KeyEvent) :
    ((handleKey s e).correct = s.correct ∧ (handleKey s e).incorrect = s.incorrect) ∨
    (s.showingResult = false ∧ (handleKey s e).showingResult = true ∧
      (((handleKey s e).correct = s.correct + 1 ∧ (handleKey s e).incorrect = s.incorrect) ∨
       ((handleKey s e).correct = s.correct ∧
        (handleKey s e).incorrect = s.incorrect + 1))) := by
  unfold handleKey
  split
  · exact Or.inl ⟨rfl, rfl⟩
  split
  · exact Or.inl ⟨rfl, rfl⟩
  next hsr =>
  have hsf : s.showingResult = false := by simpa using hsr
  split
  · exact Or.inl ⟨rfl, rfl⟩
  split
  · rcases handleMultipleChoiceKey_shape e s with ⟨_, _, ⟨_, _, h3, h4⟩ | ⟨h1, _, hbump⟩⟩
    · exact Or.inl ⟨h3, h4⟩
    · exact Or.inr ⟨hsf, h1, hbump⟩
  · rcases handleTypeAnswerKey_shape e s with ⟨_, _, ⟨_, _, h3, h4⟩ | ⟨h1, _, hbump⟩⟩
    · exact Or.inl ⟨h3, h4⟩
    · exact Or.inr ⟨hsf, h1, hbump⟩

theorem inv_of_shape (s s' : LearnState) (hshape : StepShape s s')
    (hans : s.answered = s.showingResult)
    (hcnt : s.correct + s.incorrect = s.currentIndex + if s.showingResult then 1 else 0)
    (hlt : s.showingResult = true → s.currentIndex < s.questions.length)
    (hle : s.currentIndex ≤ s.questions.length)
    (hsf : s.showingResult = false)
    (hidx' : s.currentIndex < s.questions.length) :
    CountersInv s' := by
  obtain ⟨hQ, hI, hrest⟩ := hshape
  have hc0 : s.correct + s.incorrect = s.currentIndex := by
    rw [hcnt, hsf]; simp
  rcases hrest with ⟨h1, h2, h3, h4⟩ | ⟨h1, h2, hbump⟩
  · refine ⟨?_, ?_, ?_, ?_⟩
    · rw [h2, h1, hans]
    · rw [h3, h4, hI, h1, hcnt]
    · intro hx
      rw [h1] at hx
      rw [hI, hQ]
      exact hlt hx
    · rw [hI, hQ]; exact hle
  · refine ⟨?_, ?_, ?_, ?_⟩
    · rw [h2, h1]
    · rcases hbump with ⟨hc, hi⟩ | ⟨hc, hi⟩ <;> rw [hc, hi, hI, h1] <;> simp <;> omega
    · intro _
      rw [hI, hQ]
      exact hidx'
    · rw [hI, hQ]; exact hle

theorem handleKey_inv (s : LearnState) (e : KeyEvent) (h : CountersInv s) :
    CountersInv (handleKey s e) := by
  obtain ⟨hans, hcnt, hlt, hle⟩ := h
  unfold handleKey
  split
  · exact ⟨hans, hcnt, hlt, hle⟩
  next hidx =>
  have hidx' : s.currentIndex < s.questions.length := by omega
  split
  · next hsr =>
    have hc1 : s.correct + s.incorrect = s.currentIndex + 1 := by
      rw [hcnt, if_pos hsr]
    refine ⟨rfl, by simpa using hc1, by simp, ?_⟩
    have := hlt hsr
    simpa using this
  · next hsr =>
    have hsf : s.showingResult = false := by simpa using hsr
    split
    · exact ⟨hans, hcnt, hlt, hle⟩
    split
    · exact inv_of_shape s _ (handleMultipleChoiceKey_shape e s) hans hcnt hlt hle hsf hidx'
    · exact inv_of_shape s _ (handleTypeAnswerKey_shape e s) hans hcnt hlt hle hsf hidx'

theorem initialLearnState_inv (qs : List Question) :
    CountersInv (initialLearnState qs) :=
  ⟨rfl, rfl, by simp [initialLearnState], Nat.zero_le _⟩

theorem stepKeys_inv (ks : List KeyEvent) : ∀ (s : LearnState), CountersInv s →
    CountersInv (stepKeys s ks) ∧ (stepKeys s ks).questions = s.questions := by
  induction ks with
  | nil => intro s h; exact ⟨h, rfl⟩
  | cons k rest ih =>
    intro s h
    obtain ⟨h1, h2⟩ := ih (handleKey s k) (handleKey_inv s k h)
    refine ⟨?_, ?_⟩
    · simpa [stepKeys, List.foldl_cons] using h1
    · show (stepKeys s (k :: rest)).questions = s.questions
      have : stepKeys s (k :: rest) = stepKeys (handleKey s k) rest := rfl
      rw [this, h2, handleKey_questions]

/-! ## Claim theorems: session state machine -/

/-- C2: for every key-event sequence applied to a session on `N` questions,
`correct + incorrect ≤ N`; once the session is complete
(`currentIndex = N`) the counters sum to exactly `N`; and any further
dispatched event either leaves both counters unchanged or is a finalizing
transition (it flips `showingResult` on) that increments exactly one of the
two counters. -/
theorem session_counters (qs : List Question) (ks : List KeyEvent) :
    (stepKeys (initialLearnState qs) ks).correct +
        (stepKeys (initialLearnState qs) ks).incorrect ≤ qs.length ∧
    ((stepKeys (initialLearnState qs) ks).currentIndex = qs.length →
      (stepKeys (initialLearnState qs) ks).correct +
        (stepKeys (initialLearnState qs) ks).incorrect = qs.length) ∧
    (∀ e : KeyEvent,
      ((handleKey (stepKeys (initialLearnState qs) ks) e).correct =
          (stepKeys (initialLearnState qs) ks).correct ∧
        (handleKey (stepKeys (initialLearnState qs) ks) e).incorrect =
          (stepKeys (initialLearnState qs) ks).incorrect) ∨
      ((stepKeys (initialLearnState qs) ks).showingResult = false ∧
        (handleKey (stepKeys (initialLearnState qs) ks) e).showingResult = true ∧
        (((handleKey (stepKeys (initialLearnState qs) ks) e).correct =
            (stepKeys (initialLearnState qs) ks).correct + 1 ∧
          (handleKey (stepKeys (initialLearnState qs) ks) e).incorrect =
            (stepKeys (initialLearnState qs) ks).incorrect) ∨
         ((handleKey (stepKeys (initialLearnState qs) ks) e).correct =
            (stepKeys (initialLearnState qs) ks).correct ∧
          (handleKey (stepKeys (initialLearnState qs) ks) e).incorrect =
            (stepKeys (initialLearnState qs) ks).incorrect + 1)))) := by
  obtain ⟨⟨hans, hcnt, hlt, hle⟩, hq⟩ :=
    stepKeys_inv ks (initialLearnState qs) (initialLearnState_inv qs)
  have hqlen : (stepKeys (initialLearnState qs) ks).questions.length = qs.length := by
    rw [hq]; rfl
  refine ⟨?_, ?_, fun e => handleKey_counters _ e⟩
  · by_cases hb : (stepKeys (initialLearnState qs) ks).showingResult = true
    · have h1 := hlt hb
      rw [hcnt, if_pos hb]
      omega
    · rw [hcnt, if_neg hb]
      omega
  · intro hidx
    by_cases hb : (stepKeys (initialLearnState qs) ks).showingResult = true
    · have h1 := hlt hb
      omega
    · rw [hcnt, if_neg hb, hidx]
      omega

/-- Witness for C2: a one-question type-answer session in which the user
types the correct answer, submits, and acknowledges, ends complete with
`correct + incorrect = 1`. -/
theorem session_counters_witness :
    (stepKeys (initialLearnState [typeQuestion]) typeSessionKeys).currentIndex = 1 ∧
    (stepKeys (initialLearnState [typeQuestion]) typeSessionKeys).correct +
      (stepKeys (initialLearnState [typeQuestion]) typeSessionKeys).incorrect = 1 :=
  ⟨by decide, (session_counters [typeQuestion] typeSessionKeys).2.1 (by decide)⟩

/-- C8: in the awaiting-answer state, submitting a blank (whitespace-only)
typed buffer, confirming a multiple-choice question with no option selected
or with the selection out of range, and a direct digit selection beyond the
option count, are all silent no-ops: the handler is total (no exception) and
returns the state unchanged. -/
theorem session_invalid_submit_noop (s : LearnState) (q : Question)
    (hq : s.questions[s.currentIndex]? = some q)
    (hsr : s.showingResult = false)
    (hans : s.answered = false) :
    (∀ ev : KeyEvent, (jsToLower ev.name = "return" ∨ jsToLower ev.name = "enter") →
      q.mode = .typeAnswer → (jsTrim s.typedAnswer).length = 0 →
      handleKey s ev = s) ∧
    (∀ ev : KeyEvent, (jsToLower ev.name = "return" ∨ jsToLower ev.name = "enter") →
      q.mode = .multipleChoice →
      (s.selectedOption < 0 ∨ ((q.options.getD []).length : Int) ≤ s.selectedOption) →
      handleKey s ev = s) ∧
    (∀ ev : KeyEvent,
      (jsStringLe "1" (jsToLower ev.name) && jsStringLe (jsToLower ev.name) "4") = true →
      q.mode = .multipleChoice →
      ((q.options.getD []).length : Int) ≤ (leadingDigitsVal (jsToLower ev.name) : Int) - 1 →
      handleKey s ev = s) := by
  have hlen : ¬(s.questions.length ≤ s.currentIndex) := by
    have := (List.getElem?_eq_some_iff.mp hq).1
    omega
  refine ⟨?_, ?_, ?_⟩
  · intro ev hev hmode hblank
    unfold handleKey
    rw [if_neg hlen, if_neg (by simp [hsr]), hq]
    simp only [Option.getD_some]
    rw [if_neg (by simp [hmode]), handleTypeAnswerKey]
    rcases hev with h | h <;> rw [h] <;> simp [hblank]
  · intro ev hev hmode hsel
    unfold handleKey
    rw [if_neg hlen, if_neg (by simp [hsr]), hq]
    simp only [Option.getD_some]
    rw [if_pos hmode, handleMultipleChoiceKey]
    simp only [hq, Option.getD_some]
    have hd14 : ∀ kn : String, kn = "return" ∨ kn = "enter" →
        (jsStringLe "1" kn && jsStringLe kn "4") = false := by
      rintro kn (rfl | rfl) <;> decide
    have had : ∀ kn : String, kn = "return" ∨ kn = "enter" →
        (jsStringLe "a" kn && jsStringLe kn "d") = false := by
      rintro kn (rfl | rfl) <;> decide
    rw [if_neg (by simp [hd14 _ hev]), if_neg (by simp [had _ hev])]
    rcases hev with h | h <;> rw [h] <;>
      rcases hsel with hneg | hbig
    · have h0 : ¬((0 : Int) ≤ s.selectedOption) := by omega
      simp [h0, mcFinalize]
    · have h1 : ¬(s.selectedOption < ((q.options.getD []).length : Int)) := by omega
      simp [mcFinalize, h1]
    · have h0 : ¬((0 : Int) ≤ s.selectedOption) := by omega
      simp [h0, mcFinalize]
    · have h1 : ¬(s.selectedOption < ((q.options.getD []).length : Int)) := by omega
      simp [mcFinalize, h1]
  · intro ev hdig hmode hbig
    unfold handleKey
    rw [if_neg hlen, if_neg (by simp [hsr]), hq]
    simp only [Option.getD_some]
    rw [if_pos hmode, handleMultipleChoiceKey]
    simp only [hq, Option.getD_some]
    rw [if_pos hdig, mcFinalize,
      if_neg (by rintro ⟨h0, h1, _⟩; omega)]

/-- Witness for C8: a blank submit on a fresh type-answer question, an
unselected confirm and an out-of-range digit press on a fresh two-option
multiple-choice question, all leave the state untouched. -/
theorem session_invalid_submit_noop_witness :
    handleKey (initialLearnState [typeQuestion]) { name := "return" } =
      initialLearnState [typeQuestion] ∧
    handleKey (initialLearnState [mcQuestion]) { name := "enter" } =
      initialLearnState [mcQuestion] ∧
    handleKey (initialLearnState [mcQuestion]) { name := "3" } =
      initialLearnState [mcQuestion] :=
  ⟨(session_invalid_submit_noop (initialLearnState [typeQuestion]) typeQuestion
      (by decide) rfl rfl).1 { name := "return" } (Or.inl (by decide)) rfl (by decide),
   (session_invalid_submit_noop (initialLearnState [mcQuestion]) mcQuestion
      (by decide) rfl rfl).2.1 { name := "enter" } (Or.inr (by decide)) rfl
      (Or.inl (by decide)),
   (session_invalid_submit_noop (initialLearnState [mcQuestion]) mcQuestion
      (by decide) rfl rfl).2.2 { name := "3" } (by decide) rfl (by decide)⟩

/-- C9: the completion summary satisfies `total = correct + incorrect`,
`percentage = round(100 * correct / total)` when `total > 0` (where `round`
is `Math.round`, i.e. floor of the value plus one half), and
`percentage = 0` when `total = 0`. -/
theorem summary_percentage (s : LearnState) :
    (renderCompleteSummary s).total = s.correct + s.incorrect ∧
    (0 < s.correct + s.incorrect →
      (renderCompleteSummary s).percentage =
        jsMathRound ((100 * (s.correct : ℚ)) / ((s.correct + s.incorrect : Nat) : ℚ))) ∧
    (s.correct + s.incorrect = 0 → (renderCompleteSummary s).percentage = 0) := by
  refine ⟨rfl, ?_, ?_⟩
  · intro h
    show (if 0 < s.correct + s.incorrect then
        jsMathRound ((s.correct : ℚ) / ((s.correct + s.incorrect : Nat) : ℚ) * 100)
      else 0) = _
    rw [if_pos h]
    congr 1
    ring
  · intro h
    show (if 0 < s.correct + s.incorrect then
        jsMathRound ((s.correct : ℚ) / ((s.correct + s.incorrect : Nat) : ℚ) * 100)
      else 0) = 0
    rw [if_neg (by omega)]

/-- Witness for C9: a finished one-for-one session scores `total = 1`,
`percentage = 100`, and a zero-question session scores `0`. -/
theorem summary_percentage_witness :
    (renderCompleteSummary oneRightState).percentage =
      jsMathRound ((100 * ((oneRightState.correct : Nat) : ℚ)) /
        ((oneRightState.correct + oneRightState.incorrect : Nat) : ℚ)) ∧
    (renderCompleteSummary (initialLearnState [])).percentage = 0 :=
  ⟨(summary_percentage oneRightState).2.1 (by decide),
   (summary_percentage (initialLearnState [])).2.2 (by decide)⟩

/-! ## Generator lemmas -/

theorem length_flatMap_const {β γ : Type} (l : List β) (f : β → List γ) (k : Nat)
    (h : ∀ b ∈ l, (f b).length = k) : (l.flatMap f).length = l.length * k := by
  induction l with
  | nil => simp
  | cons b rest ih =>
    rw [List.flatMap_cons, List.length_append, List.length_cons,
      ih fun x hx => h x (List.mem_cons_of_mem _ hx), h b (by simp)]
    ring

theorem generateFromCards_length (cards : List Card) (opts : QuestionGeneratorOptions)
    (ρ : RandomSource) :
    (generateMultipleChoiceQuestionsFromCards cards opts ρ).length =
      (if opts.bidirectional then 2 * cards.length else cards.length) := by
  unfold generateMultipleChoiceQuestionsFromCards
  have hcl : (if opts.shuffle then shuffle cards ρ.shuffleCards else cards).length =
      cards.length := by
    split
    · exact shuffle_length ..
    · rfl
  have hout : ∀ (l : List GeneratedQuestion),
      (if opts.shuffle then shuffle l ρ.finalShuffle else l).length = l.length := by
    intro l
    split
    · exact shuffle_length ..
    · rfl
  rw [hout, length_flatMap_const _ _ (if opts.bidirectional then 2 else 1)]
  · rw [List.enum_length, hcl]
    cases opts.bidirectional <;> simp <;> ring
  · intro b _
    cases opts.bidirectional <;> simp

theorem generateFromCards_nil (opts : QuestionGeneratorOptions) (ρ : RandomSource) :
    generateMultipleChoiceQuestionsFromCards [] opts ρ = [] := by
  unfold generateMultipleChoiceQuestionsFromCards
  rcases opts with ⟨n, b, sh⟩
  cases sh <;> simp [shuffle, fyLoop]

theorem generateQuestions_length (cards : List Card) (mode : LearnMode) (ρ : RandomSource) :
    (generateQuestions cards mode ρ).length = 2 * cards.length := by
  unfold generateQuestions
  rw [shuffle_length, length_flatMap_const _ _ 2]
  · rw [List.enum_length, shuffle_length]
    ring
  · intro p _
    rfl

theorem generateQuestions_nil (mode : LearnMode) (ρ : RandomSource) :
    generateQuestions [] mode ρ = [] := by
  unfold generateQuestions
  simp [shuffle, fyLoop]

theorem countP_add_not {β : Type} (p : β → Bool) (l : List β) :
    l.countP p + l.countP (fun b => !(p b)) = l.length := by
  induction l with
  | nil => rfl
  | cons b rest ih =>
    by_cases h : p b = true
    · rw [List.countP_cons_of_pos _ _ h, List.countP_cons_of_neg _ _ (by simp [h]),
        List.length_cons]
      omega
    · rw [List.countP_cons_of_neg _ _ h, List.countP_cons_of_pos _ _ (by simpa using h),
        List.length_cons]
      omega

theorem other_id_exists (cards : List Card) (card : Card)
    (hmem : card ∈ cards) (hnd : (cards.map Card.id).Nodup) (hlen : 2 ≤ cards.length) :
    1 ≤ (cards.filter fun c => c.id ≠ card.id).length := by
  have heqc : cards.countP (fun c => c.id == card.id) ≤ 1 := by
    have h1 := List.nodup_iff_count_le_one.mp hnd card.id
    rw [List.count_eq_countP, List.countP_map] at h1
    simpa [Function.comp] using h1
  have hsplit := countP_add_not (fun c => c.id == card.id) cards
  have hfil : (cards.filter fun c => c.id ≠ card.id).length =
      cards.countP (fun c => !(c.id == card.id)) := by
    rw [← List.countP_eq_length_filter]
    congr 1
    funext c
    rw [decide_not]
    congr 1
  omega

theorem createQuestion_card (card : Card) (allCards : List Card) (dir : Direction)
    (m : QuestionMode) (wr opt : Nat → Nat) (ids : Nat → String) :
    (createQuestion card allCards dir m wr opt ids).card = card := by
  cases m <;> simp [createQuestion]

theorem createQuestion_direction (card : Card) (allCards : List Card) (dir : Direction)
    (m : QuestionMode) (wr opt : Nat → Nat) (ids : Nat → String) :
    (createQuestion card allCards dir m wr opt ids).direction = dir := by
  cases m <;> simp [createQuestion]

theorem createQuestion_options_shape (card : Card) (allCards : List Card) (dir : Direction)
    (m : QuestionMode) (wr opt : Nat → Nat) (ids : Nat → String)
    (os : List MultipleChoiceOption)
    (hos : (createQuestion card allCards dir m wr opt ids).options = some os) :
    os.length = 1 + min 3 (allCards.filter fun c => c.id ≠ card.id).length ∧
    os.countP (fun o => o.isCorrect) = 1 ∧
    (∀ o ∈ os, o.isCorrect = false →
      ∃ c, c ∈ allCards ∧ c.id ≠ card.id ∧
        o.text = (if dir = .frontToBack then c.back.text else c.front.text)) := by
  cases m with
  | typeAnswer => simp [createQuestion] at hos
  | multipleChoice =>
    simp only [createQuestion, reduceIte] at hos
    injection hos with hos2
    subst hos2
    refine ⟨?_, ?_, ?_⟩
    · rw [shuffle_length]
      simp only [List.length_cons, List.length_map, List.enum_length, List.length_take,
        shuffle_length]
      rw [min_assoc, min_self]
      omega
    · rw [(shuffle_perm _ opt).countP_eq]
      simp [List.countP_cons, List.countP_map, Function.comp]
    · intro o ho hoc
      have ho2 := (shuffle_perm _ opt).mem_iff.mp ho
      rcases List.mem_cons.mp ho2 with rfl | ho3
      · simp at hoc
      · obtain ⟨pr, hpr, rfl⟩ := List.mem_map.mp ho3
        have hpr2 : pr.2 ∈
            ((shuffle (allCards.filter fun c => c.id ≠ card.id) wr).take
              (min 3 (allCards.filter fun c => c.id ≠ card.id).length)).map
              (fun c => if dir = .frontToBack then c.back.text else c.front.text) :=
          List.snd_mem_of_mem_enumFrom (by simpa [List.enum] using hpr)
        obtain ⟨c, hc, hct⟩ := List.mem_map.mp hpr2
        have hcw : c ∈ shuffle (allCards.filter fun c => c.id ≠ card.id) wr :=
          List.take_subset _ _ hc
        have hco : c ∈ allCards.filter fun c => c.id ≠ card.id :=
          (shuffle_perm _ wr).mem_iff.mp hcw
        have hmf := List.mem_filter.mp hco
        refine ⟨c, hmf.1, of_decide_eq_true hmf.2, ?_⟩
        simpa using hct.symm

/-! ## Claim theorems: question generators -/

/-- C7: a generated question's accepted answers are the primary answer-side
text followed by the card's alternatives exactly in the front-to-back
direction (the back is the target answer); in the back-to-front direction
they are the front text alone, never including the alternatives. -/
theorem createQuestion_accepted_answers (card : Card) (allCards : List Card)
    (direction : Direction) (mode : QuestionMode) (wr opt : Nat → Nat)
    (ids : Nat → String) :
    (createQuestion card allCards direction mode wr opt ids).correctAnswers =
      (if direction = .frontToBack then card.back.text :: card.back.alternatives
       else [card.front.text]) := by
  cases direction <;> cases mode <;> simp [createQuestion]

/-- C6: the multiple-choice generator yields exactly `2N` questions for `N`
cards when `bidirectional` and exactly `N` otherwise; the learn command's own
generator always yields `2N`; and an empty card list yields an empty question
list rather than an error, in both generators. -/
theorem generator_cardinality (cards : List Card) (opts : QuestionGeneratorOptions)
    (ρ : RandomSource) :
    (generateMultipleChoiceQuestionsFromCards cards opts ρ).length =
      (if opts.bidirectional then 2 * cards.length else cards.length) ∧
    generateMultipleChoiceQuestionsFromCards [] opts ρ = [] ∧
    (∀ mode : LearnMode, (generateQuestions cards mode ρ).length = 2 * cards.length ∧
      generateQuestions [] mode ρ = []) :=
  ⟨generateFromCards_length cards opts ρ, generateFromCards_nil opts ρ,
   fun mode => ⟨generateQuestions_length cards mode ρ, generateQuestions_nil mode ρ⟩⟩

/-- Counterexample to C3 as stated: on the non-empty single-card list, the
generator produces multiple-choice questions with exactly one option (no
other card can supply distractors), violating the claimed 2-to-4 option
range. -/
theorem generateQuestions_mc_shape_cex :
    ((generateQuestions [soloCard] .multipleChoice zeroRand).headD emptyQuestion).mode =
      .multipleChoice ∧
    (((generateQuestions [soloCard] .multipleChoice zeroRand).headD
        emptyQuestion).options.getD []).length = 1 := by
  decide

/-- C3 (amended): on a card list of at least two cards with pairwise distinct
ids, every generated multiple-choice question has between 2 and 4 options,
exactly one option flagged correct, and every distractor's text drawn from a
card whose id differs from the question's source card. -/
theorem generateQuestions_mc_shape (cards : List Card) (mode : LearnMode)
    (ρ : RandomSource) (hlen : 2 ≤ cards.length) (hnd : (cards.map Card.id).Nodup) :
    ∀ q ∈ generateQuestions cards mode ρ, ∀ os, q.options = some os →
      2 ≤ os.length ∧ os.length ≤ 4 ∧
      os.countP (fun o => o.isCorrect) = 1 ∧
      ∀ o ∈ os, o.isCorrect = false →
        ∃ c, c ∈ cards ∧ c.id ≠ q.card.id ∧
          o.text = (if q.direction = .frontToBack then c.back.text else c.front.text) := by
  intro q hq os hos
  simp only [generateQuestions] at hq
  have hq2 := (shuffle_perm _ ρ.finalShuffle).mem_iff.mp hq
  obtain ⟨p, hp, hqin⟩ := List.mem_flatMap.mp hq2
  have hpc : p.2 ∈ cards :=
    (shuffle_perm cards ρ.shuffleCards).mem_iff.mp
      (List.snd_mem_of_mem_enumFrom (by simpa [List.enum] using hp))
  have hq3 : ∃ (dir : Direction) (m : QuestionMode) (wr opt : Nat → Nat)
      (ids : Nat → String),
      q = createQuestion p.2 (shuffle cards ρ.shuffleCards) dir m wr opt ids := by
    rcases List.mem_cons.mp hqin with h | h
    · exact ⟨.frontToBack, _, _, _, _, h⟩
    · rcases List.mem_cons.mp h with h2 | h2
      · exact ⟨.backToFront, _, _, _, _, h2⟩
      · simp at h2
  obtain ⟨dir, m, wr, opt, ids, rfl⟩ := hq3
  obtain ⟨hlenos, hcount, hdist⟩ :=
    createQuestion_options_shape p.2 (shuffle cards ρ.shuffleCards) dir m wr opt ids os hos
  have hfe : ((shuffle cards ρ.shuffleCards).filter fun c => c.id ≠ p.2.id).length =
      (cards.filter fun c => c.id ≠ p.2.id).length := by
    rw [← List.countP_eq_length_filter, ← List.countP_eq_length_filter]
    exact (shuffle_perm cards ρ.shuffleCards).countP_eq _
  have hL : 1 ≤ ((shuffle cards ρ.shuffleCards).filter fun c => c.id ≠ p.2.id).length := by
    rw [hfe]
    exact other_id_exists cards p.2 hpc hnd hlen
  rw [createQuestion_card, createQuestion_direction]
  refine ⟨?_, ?_, hcount, ?_⟩
  · rw [hlenos]
    have h3 : 1 ≤ min 3 ((shuffle cards ρ.shuffleCards).filter
        fun c => c.id ≠ p.2.id).length := le_min (by omega) hL
    omega
  · rw [hlenos]
    have h3 := min_le_left 3 ((shuffle cards ρ.shuffleCards).filter
        fun c => c.id ≠ p.2.id).length
    omega
  · intro o ho hoc
    obtain ⟨c, hc1, hc2, hc3⟩ := hdist o ho hoc
    exact ⟨c, (shuffle_perm cards ρ.shuffleCards).mem_iff.mp hc1, hc2, hc3⟩

/-- Witness for C3 (amended): on a concrete two-card list the first generated
multiple-choice question indeed gets at least two options. -/
theorem generateQuestions_mc_shape_witness :
    2 ≤ (((generateQuestions twoCards .multipleChoice zeroRand).headD
        emptyQuestion).options.getD []).length :=
  ((generateQuestions_mc_shape twoCards .multipleChoice zeroRand (by decide) (by decide)
      ((generateQuestions twoCards .multipleChoice zeroRand).headD emptyQuestion)
      (by decide)
      (((generateQuestions twoCards .multipleChoice zeroRand).headD
        emptyQuestion).options.getD [])
      (by decide))).1

end Tuizlet
